import Mathlib

/-!
Verification of the workout scheduling/selection subsystem.

This file gives a shallow embedding, in Lean 4, of the scheduling and
selection logic of the fitness backend (app/db/queries.py and
app/apis/user.py) and proves or refutes the spec claims about it.

Conventions of the embedding:
- SQL queries that compute a value are translated to pure functions on the
  relevant state (the rows they read), keeping the source's names.
- Stateful endpoints become explicit state-passing functions returning the
  new state together with an Except value for the HTTP error outcome.
- The pseudo-random shuffles (random.shuffle in Python) are modelled as an
  injected function together with a permutation hypothesis in the theorems.
- Machine integers of the source are modelled as Nat; Python floor division
  on non-negative ints coincides with Nat division.
-/

/-- Error outcomes surfaced by the endpoints, mirroring the error kinds in
the spec (NotFound, InvalidInput, EmptyCandidatePool). -/
inductive ApiError where
  | notFound
  | invalidInput
  | emptyCandidatePool
deriving DecidableEq, Repr

/-! ## RoutineDayResolver

Embeds the CurrentWorkoutDay CTE of get_profile_for_workout_generation and
get_workout_day_status (app/db/queries.py):

  COALESCE(current_day_number,
           (EXTRACT(DAY FROM (NOW() - created_at))::int % total_routine_days) + 1)

wholeDaysSinceCreation is the integer day component of the interval
NOW() - created_at, i.e. the number of whole days elapsed since the
account-creation timestamp. -/
def resolveTodayDayNumber (currentDayNumber : Option Nat)
    (wholeDaysSinceCreation : Nat) (totalRoutineDays : Nat) : Nat :=
  match currentDayNumber with
  | some d => d
  | none => wholeDaysSinceCreation % totalRoutineDays + 1

/-- State of the user's active routine relevant to the day override:
the day_number values of its user_routine_days rows, and the stored
current_day_number override (NULL modelled as none). -/
structure UserRoutineState where
  dayNumbers : List Nat
  currentDayNumber : Option Nat
deriving DecidableEq, Repr

/-- Embeds set_active_day_for_user (app/db/queries.py): an UPDATE of
current_day_number guarded by an EXISTS check that the requested day_number
is a day slot of the active routine. Returns the new state and whether a
row was updated (fetchval RETURNING id is not None). -/
def set_active_day_for_user (st : UserRoutineState) (dayNumber : Nat) :
    UserRoutineState × Bool :=
  if dayNumber ∈ st.dayNumbers then
    ({ st with currentDayNumber := some dayNumber }, true)
  else
    (st, false)

/-- Embeds the update_user_active_day endpoint (app/apis/user.py): on a
failed update it raises HTTP 400 (the InvalidInput kind); on success it
returns a success response. -/
def update_user_active_day (st : UserRoutineState) (dayNumber : Nat) :
    UserRoutineState × Except ApiError Unit :=
  match set_active_day_for_user st dayNumber with
  | (st2, true) => (st2, Except.ok ())
  | (st2, false) => (st2, Except.error ApiError.invalidInput)

/-! ## Target exercise count -/

/-- Embeds the TOTAL_EXERCISES_WANTED computation of generate_workout_plan
(app/apis/user.py): a step function of the session duration in minutes.
Note the final branch of the source is 8 + ((duration - 60) // 10). -/
def total_exercises_wanted (duration : Nat) : Nat :=
  if duration ≤ 10 then 2
  else if duration ≤ 20 then 3
  else if duration ≤ 30 then 4
  else if duration ≤ 40 then 5
  else if duration ≤ 50 then 6
  else if duration ≤ 60 then 7
  else 8 + (duration - 60) / 10

/-! ## DayContentMutator: single-slot mutations -/

/-- The exercise_mode column of user_routine_days. -/
inductive ExerciseMode where
  | focus_areas
  | direct_exercises
deriving DecidableEq, Repr

/-- Content of one user_routine_days slot: its mode, its linked
user_routine_day_focus_areas rows, and its linked
user_routine_day_exercises rows (exercise ids in order_in_day order). -/
structure DaySlot where
  exercise_mode : ExerciseMode
  focus_area_ids : List Nat
  exercises : List Nat
deriving DecidableEq, Repr

/-- Only the content field matching the slot's mode is populated. -/
def DaySlot.wellFormed (s : DaySlot) : Prop :=
  (s.exercise_mode = ExerciseMode.focus_areas → s.exercises = []) ∧
  (s.exercise_mode = ExerciseMode.direct_exercises → s.focus_area_ids = [])

instance (s : DaySlot) : Decidable s.wellFormed := by
  unfold DaySlot.wellFormed; infer_instance

/-- Embeds switch_day_to_focus_areas (app/db/queries.py), restricted to the
targeted slot (ownership lookup succeeded): it deletes all direct
exercises, deletes all existing focus areas, sets the mode to focus_areas,
and inserts the supplied focus areas. -/
def switch_day_to_focus_areas (_s : DaySlot) (focusAreaIds : List Nat) : DaySlot :=
  { exercise_mode := ExerciseMode.focus_areas
    focus_area_ids := focusAreaIds
    exercises := [] }

/-- Embeds add_exercise_to_day (app/db/queries.py), restricted to the
targeted slot: if the slot is in focus_areas mode it first deletes the
focus areas and switches the mode to direct_exercises; then it inserts the
exercise (ON CONFLICT DO NOTHING, so a duplicate insert reports failure).
The Bool is the function's return value. -/
def add_exercise_to_day (s : DaySlot) (exerciseId : Nat) : DaySlot × Bool :=
  let s1 :=
    if s.exercise_mode = ExerciseMode.focus_areas then
      { s with focus_area_ids := [], exercise_mode := ExerciseMode.direct_exercises }
    else s
  if exerciseId ∈ s1.exercises then
    (s1, false)
  else
    ({ s1 with exercises := s1.exercises ++ [exerciseId] }, true)

/-! ## Claim C1 -/

/-- C1: for a user whose active routine has L ≥ 1 day slots and who has no
stored manual override, the resolved day is (D mod L) + 1 where D is the
number of whole days elapsed since account creation, and it always lies in
the interval from 1 to L. -/
theorem cyclical_day_resolution_correct (D L : Nat) (hL : 1 ≤ L) :
    resolveTodayDayNumber none D L = D % L + 1 ∧
    1 ≤ resolveTodayDayNumber none D L ∧
    resolveTodayDayNumber none D L ≤ L := by
  have hmod : D % L < L := Nat.mod_lt D hL
  refine ⟨rfl, ?_, ?_⟩
  · exact Nat.succ_le_succ (Nat.zero_le _)
  · exact Nat.succ_le_of_lt hmod

/-- Witness for C1 at L = 3, D = 7. -/
theorem cyclical_day_resolution_correct_witness :
    resolveTodayDayNumber none 7 3 = 7 % 3 + 1 ∧
    1 ≤ resolveTodayDayNumber none 7 3 ∧
    resolveTodayDayNumber none 7 3 ≤ 3 :=
  cyclical_day_resolution_correct 7 3 (by decide)

/-! ## Claim C5 -/

/-- C5: set_active_day with a valid day slot persists the override and the
override from then on wins over the computed cyclical day; with an invalid
day the endpoint fails with InvalidInput and the stored override (indeed
the whole routine state) is unchanged. -/
theorem set_active_day_override_correct (st : UserRoutineState) (d : Nat) :
    (d ∈ st.dayNumbers →
      update_user_active_day st d =
        ({ st with currentDayNumber := some d }, Except.ok ()) ∧
      ∀ D L, resolveTodayDayNumber (some d) D L = d) ∧
    (d ∉ st.dayNumbers →
      update_user_active_day st d = (st, Except.error ApiError.invalidInput)) := by
  constructor
  · intro hmem
    constructor
    · simp [update_user_active_day, set_active_day_for_user, hmem]
    · intro D L; rfl
  · intro hmem
    simp [update_user_active_day, set_active_day_for_user, hmem]

/-- Witness for C5: a valid override (day 2 of a 3-day routine) is stored
and wins; an invalid override (day 7) fails with InvalidInput and leaves
the previous override (day 1) unchanged. -/
theorem set_active_day_override_correct_witness :
    (update_user_active_day ⟨[1, 2, 3], some 1⟩ 2 =
      (⟨[1, 2, 3], some 2⟩, Except.ok ()) ∧
      resolveTodayDayNumber (some 2) 11 3 = 2) ∧
    update_user_active_day ⟨[1, 2, 3], some 1⟩ 7 =
      (⟨[1, 2, 3], some 1⟩, Except.error ApiError.invalidInput) := by
  refine ⟨⟨?_, ?_⟩, ?_⟩
  · exact ((set_active_day_override_correct ⟨[1, 2, 3], some 1⟩ 2).1 (by decide)).1
  · exact ((set_active_day_override_correct ⟨[1, 2, 3], some 1⟩ 2).1 (by decide)).2 11 3
  · exact (set_active_day_override_correct ⟨[1, 2, 3], some 1⟩ 7).2 (by decide)

/-! ## Claim C4 -/

/-- C4 counterexample: the claim says at most 7 exercises for 60 minutes and
then 7 plus one per further full 10-minute increment beyond 60, i.e. 7 for
duration 61 and 8 for duration 70. The code returns 8 + (duration - 60) / 10
beyond 60: 8 at duration 61 and 9 at duration 70, so the claimed formula is
wrong at both inputs (under either the floor or the ceiling reading of the
increment count). -/
theorem exercise_count_claim_counterexample :
    total_exercises_wanted 61 = 8 ∧ 7 + (61 - 60) / 10 = 7 ∧
    total_exercises_wanted 61 ≠ 7 + (61 - 60) / 10 ∧
    total_exercises_wanted 70 = 9 ∧ 7 + (70 - 60 + 9) / 10 = 8 ∧
    total_exercises_wanted 70 ≠ 7 + (70 - 60 + 9) / 10 := by
  decide

/-- C4 amended: N is the stated step function up to 60 minutes; beyond 60
minutes the code returns 8 plus one for each further full 10-minute
increment beyond 60, i.e. 8 + (duration - 60) / 10. -/
theorem exercise_count_step_function (d : Nat) :
    (d ≤ 10 → total_exercises_wanted d = 2) ∧
    (10 < d → d ≤ 20 → total_exercises_wanted d = 3) ∧
    (20 < d → d ≤ 30 → total_exercises_wanted d = 4) ∧
    (30 < d → d ≤ 40 → total_exercises_wanted d = 5) ∧
    (40 < d → d ≤ 50 → total_exercises_wanted d = 6) ∧
    (50 < d → d ≤ 60 → total_exercises_wanted d = 7) ∧
    (60 < d → total_exercises_wanted d = 8 + (d - 60) / 10) := by
  unfold total_exercises_wanted
  refine ⟨?_, ?_, ?_, ?_, ?_, ?_, ?_⟩ <;> intros <;> (try split_ifs) <;> omega

/-- Witness for C4 amended at durations 30 and 85. -/
theorem exercise_count_step_function_witness :
    total_exercises_wanted 30 = 4 ∧ total_exercises_wanted 85 = 8 + (85 - 60) / 10 := by
  refine ⟨?_, ?_⟩
  · exact (exercise_count_step_function 30).2.2.1 (by decide) (by decide)
  · exact (exercise_count_step_function 85).2.2.2.2.2.2 (by decide)

/-! ## Claim C7 -/

/-- C7: switching a slot to focus_areas mode clears its direct-exercise
list; adding an exercise to a focus_areas slot auto-switches it to
direct_exercises mode and clears its focus-area set; re-switching in either
direction starts from empty content, not from stale prior content; and both
mutations preserve the invariant that only the field matching the mode is
populated. -/
theorem day_slot_mode_switch_clears_other_content (s : DaySlot)
    (fas : List Nat) (eid : Nat) :
    (switch_day_to_focus_areas s fas).exercise_mode = ExerciseMode.focus_areas ∧
    (switch_day_to_focus_areas s fas).exercises = [] ∧
    (switch_day_to_focus_areas s fas).focus_area_ids = fas ∧
    (add_exercise_to_day s eid).1.exercise_mode = ExerciseMode.direct_exercises ∧
    (s.exercise_mode = ExerciseMode.focus_areas →
      (add_exercise_to_day s eid).1.focus_area_ids = []) ∧
    (s.wellFormed → (add_exercise_to_day s eid).1.wellFormed) ∧
    (switch_day_to_focus_areas s fas).wellFormed ∧
    (add_exercise_to_day (switch_day_to_focus_areas s fas) eid).1.exercises = [eid] ∧
    (switch_day_to_focus_areas (add_exercise_to_day s eid).1 fas).focus_area_ids = fas ∧
    (switch_day_to_focus_areas (add_exercise_to_day s eid).1 fas).exercises = [] := by
  have hmode : (add_exercise_to_day s eid).1.exercise_mode = ExerciseMode.direct_exercises := by
    by_cases h : s.exercise_mode = ExerciseMode.focus_areas <;>
      simp [add_exercise_to_day, h] <;> split <;> simp_all <;>
        cases hm : s.exercise_mode <;> simp_all
  refine ⟨rfl, rfl, rfl, hmode, ?_, ?_, ?_, ?_, rfl, rfl⟩
  · intro h
    simp only [add_exercise_to_day, h, if_pos]
    split <;> rfl
  · intro _
    refine ⟨?_, ?_⟩
    · intro hfoc
      rw [hmode] at hfoc
      cases hfoc
    · intro _
      by_cases h : s.exercise_mode = ExerciseMode.focus_areas
      · simp only [add_exercise_to_day, h, if_pos]
        split <;> rfl
      · simp only [add_exercise_to_day, h, if_neg, ite_false]
        rcases hwf : s.exercise_mode with _ | _
        · exact absurd hwf h
        · have : s.focus_area_ids = [] := by
            rcases ‹s.wellFormed› with ⟨_, h2⟩
            exact h2 hwf
          split <;> simpa
  · exact ⟨fun _ => rfl, fun h => by cases h⟩
  · simp [add_exercise_to_day, switch_day_to_focus_areas]

/-- Witness for C7 on a concrete slot in focus_areas mode with focus areas
[3, 4], switched and mutated with focus areas [5] and exercise 9. -/
theorem day_slot_mode_switch_clears_other_content_witness :
    ((⟨ExerciseMode.focus_areas, [3, 4], []⟩ : DaySlot).wellFormed →
      (add_exercise_to_day ⟨ExerciseMode.focus_areas, [3, 4], []⟩ 9).1.wellFormed) ∧
    ((⟨ExerciseMode.focus_areas, [3, 4], []⟩ : DaySlot).exercise_mode = ExerciseMode.focus_areas →
      (add_exercise_to_day ⟨ExerciseMode.focus_areas, [3, 4], []⟩ 9).1.focus_area_ids = []) ∧
    (add_exercise_to_day
      (switch_day_to_focus_areas ⟨ExerciseMode.focus_areas, [3, 4], []⟩ [5]) 9).1.exercises = [9] :=
  ⟨(day_slot_mode_switch_clears_other_content ⟨ExerciseMode.focus_areas, [3, 4], []⟩ [5] 9).2.2.2.2.2.1,
   (day_slot_mode_switch_clears_other_content ⟨ExerciseMode.focus_areas, [3, 4], []⟩ [5] 9).2.2.2.2.1,
   (day_slot_mode_switch_clears_other_content ⟨ExerciseMode.focus_areas, [3, 4], []⟩ [5] 9).2.2.2.2.2.2.2.1⟩

/-! ## ExerciseSelector / WorkoutComposer

The candidate pool delivered by get_recommended_exercises
(app/db/queries.py) is a list of rows each carrying the exercise id and the
primary_focus_area tag of the focus-area match that retrieved it; the
DISTINCT ON (id) clause of that query guarantees the ids are pairwise
distinct, which the theorems below take as a hypothesis on the pool. -/

/-- One candidate row of the pool: the exercise id and the primary
focus-area tag attached by the retrieval query. -/
structure Exercise where
  id : Nat
  primary_focus_area : Nat
deriving DecidableEq, Repr

instance {ε α : Type} [DecidableEq ε] [DecidableEq α] : DecidableEq (Except ε α) := fun x y =>
  match x, y with
  | Except.error a, Except.error b =>
    if h : a = b then Decidable.isTrue (by rw [h])
    else Decidable.isFalse (by intro hc; cases hc; exact h rfl)
  | Except.error _, Except.ok _ => Decidable.isFalse (by intro hc; cases hc)
  | Except.ok _, Except.error _ => Decidable.isFalse (by intro hc; cases hc)
  | Except.ok a, Except.ok b =>
    if h : a = b then Decidable.isTrue (by rw [h])
    else Decidable.isFalse (by intro hc; cases hc; exact h rfl)

/-- Embeds the sort of the candidate list by ascending exercise id
(sorted(..., key=id) in generate_workout_plan); a stable structural sort
standing in for Python's sorted. -/
def sortById (l : List Exercise) : List Exercise :=
  List.insertionSort (fun a b => a.id ≤ b.id) l

/-- Embeds the exclusion filter of generate_workout_plan: the id-sorted
pool with every exercise whose id lies in the union exclusion set
(forever-scoped plus today-scoped) dropped. -/
def eligible_pool (all_suitable : List Exercise) (excluded_ids : List Nat) : List Exercise :=
  (sortById all_suitable).filter (fun e => e.id ∉ excluded_ids)

/-- Helper for the grouping step: the distinct primary_focus_area values of
the pool in order of first occurrence, mirroring Python dict insertion
order in the focus_area_exercises grouping loop. The seen accumulator keeps
the recursion structural. -/
def groupKeysAux : List Exercise → List Nat → List Nat
  | [], _ => []
  | e :: es, seen =>
    if e.primary_focus_area ∈ seen then groupKeysAux es seen
    else e.primary_focus_area :: groupKeysAux es (e.primary_focus_area :: seen)

/-- The distinct primary focus-area tags of the pool, in first-occurrence
order. -/
def groupKeys (l : List Exercise) : List Nat := groupKeysAux l []

/-- Embeds the body of the guaranteed-exercises loop of
generate_workout_plan for one focus-area group: append the group's first
exercise unconditionally, and its second one when the group has a second
member and the guaranteed count is still below the target. -/
def guaranteed_step (N : Nat) (acc grp : List Exercise) : List Exercise :=
  match grp with
  | [] => acc
  | e :: rest =>
    match rest with
    | [] => acc ++ [e]
    | e2 :: _ =>
      if (acc ++ [e]).length < N then (acc ++ [e]) ++ [e2] else acc ++ [e]

/-- Embeds the guaranteed-exercises pass of generate_workout_plan: fold the
per-group step over the groups in first-occurrence order, each group being
the pool rows carrying that primary focus-area tag. -/
def guaranteed_exercises (N : Nat) (pool : List Exercise) : List Exercise :=
  (groupKeys pool).foldl
    (fun acc k => guaranteed_step N acc
      (pool.filter (fun e => e.primary_focus_area = k))) []

/-- Embeds remaining_pool of generate_workout_plan: the pool minus the
exercises whose id was taken by the guaranteed pass. -/
def remaining_pool (N : Nat) (pool : List Exercise) : List Exercise :=
  let gids := (guaranteed_exercises N pool).map Exercise.id
  pool.filter (fun e => e.id ∉ gids)

/-- Embeds steps 5 of generate_workout_plan after exclusion filtering: the
guaranteed pass, the fixed/random split of the remainder (the ceil of
remaining * (100 - R) / 100 over the rationals equals
(remaining * (100 - R) + 99) / 100 over Nat; the float arithmetic of the
source cannot cross an integer boundary at these magnitudes), and the final
display shuffle. The two injected shuffle functions stand for the two
random.shuffle calls. -/
def remaining_needed (N : Nat) (pool : List Exercise) : Nat :=
  N - (guaranteed_exercises N pool).length

/-- The fixed share of the remainder: the ceiling of
remaining_needed * (100 - R) / 100 as computed by the source. -/
def fixed_from_remaining (N R : Nat) (pool : List Exercise) : Nat :=
  (remaining_needed N pool * (100 - R) + 99) / 100

def compose_final (N R : Nat)
    (shuffleRandom shuffleFinal : List Exercise → List Exercise)
    (pool : List Exercise) : List Exercise :=
  shuffleFinal
    (if (guaranteed_exercises N pool).length < N ∧ remaining_pool N pool ≠ [] then
      guaranteed_exercises N pool ++
        (remaining_pool N pool).take (fixed_from_remaining N R pool) ++
        (shuffleRandom ((remaining_pool N pool).drop (fixed_from_remaining N R pool))).take
          (remaining_needed N pool - fixed_from_remaining N R pool)
    else
      (guaranteed_exercises N pool).take N)

/-- Embeds the focus-areas-mode path of generate_workout_plan from the
exclusion filter onward: an empty eligible pool raises an error (HTTP 404,
the EmptyCandidatePool kind), otherwise the composed list is returned. -/
def generate_workout_focus_mode (N R : Nat)
    (shuffleRandom shuffleFinal : List Exercise → List Exercise)
    (all_suitable : List Exercise) (excluded_ids : List Nat) :
    Except ApiError (List Exercise) :=
  let pool := eligible_pool all_suitable excluded_ids
  if pool = [] then Except.error ApiError.emptyCandidatePool
  else Except.ok (compose_final N R shuffleRandom shuffleFinal pool)

/-- Embeds the direct-exercises-mode path of generate_workout_plan: an
empty stored list is an InvalidInput-style HTTP 400; the stored exercises
are filtered against the same union exclusion set; an empty result after
filtering is again an error; otherwise the filtered list is returned. -/
def generate_workout_direct_mode (direct_exercises : List Exercise)
    (excluded_ids : List Nat) : Except ApiError (List Exercise) :=
  if direct_exercises = [] then Except.error ApiError.invalidInput
  else
    let filtered := direct_exercises.filter (fun e => e.id ∉ excluded_ids)
    if filtered = [] then Except.error ApiError.emptyCandidatePool
    else Except.ok filtered

/-! ### Lemmas about the grouping pass -/

theorem groupKeysAux_mem (l : List Exercise) :
    ∀ (seen : List Nat) (k : Nat),
      k ∈ groupKeysAux l seen ↔
        (∃ e ∈ l, e.primary_focus_area = k) ∧ k ∉ seen := by
  induction l with
  | nil => intro seen k; simp [groupKeysAux]
  | cons e es ih =>
    intro seen k
    by_cases h : e.primary_focus_area ∈ seen
    · have hstep : groupKeysAux (e :: es) seen = groupKeysAux es seen := by
        simp [groupKeysAux, h]
      rw [hstep, ih]
      constructor
      · rintro ⟨⟨x, hx, hpx⟩, hk⟩
        exact ⟨⟨x, List.mem_cons_of_mem _ hx, hpx⟩, hk⟩
      · rintro ⟨⟨x, hx, hpx⟩, hk⟩
        rcases List.mem_cons.mp hx with rfl | hx2
        · exact absurd (hpx ▸ h) hk
        · exact ⟨⟨x, hx2, hpx⟩, hk⟩
    · have hstep : groupKeysAux (e :: es) seen =
          e.primary_focus_area :: groupKeysAux es (e.primary_focus_area :: seen) := by
        simp [groupKeysAux, h]
      rw [hstep, List.mem_cons, ih]
      constructor
      · rintro (rfl | ⟨⟨x, hx, hpx⟩, hk⟩)
        · exact ⟨⟨e, List.mem_cons_self _ _, rfl⟩, h⟩
        · refine ⟨⟨x, List.mem_cons_of_mem _ hx, hpx⟩, ?_⟩
          intro hc; exact hk (List.mem_cons_of_mem _ hc)
      · rintro ⟨⟨x, hx, hpx⟩, hk⟩
        by_cases hek : k = e.primary_focus_area
        · exact Or.inl hek
        · rcases List.mem_cons.mp hx with rfl | hx2
          · exact absurd hpx.symm hek
          · refine Or.inr ⟨⟨x, hx2, hpx⟩, ?_⟩
            intro hc
            rcases List.mem_cons.mp hc with rfl | hc2
            · exact hek rfl
            · exact hk hc2

theorem groupKeys_mem (pool : List Exercise) (k : Nat) :
    k ∈ groupKeys pool ↔ ∃ e ∈ pool, e.primary_focus_area = k := by
  simp [groupKeys, groupKeysAux_mem]

theorem groupKeysAux_nodup (l : List Exercise) :
    ∀ (seen : List Nat), (groupKeysAux l seen).Nodup := by
  induction l with
  | nil => intro seen; simp [groupKeysAux]
  | cons e es ih =>
    intro seen
    by_cases h : e.primary_focus_area ∈ seen
    · simpa [groupKeysAux, h] using ih seen
    · have hstep : groupKeysAux (e :: es) seen =
          e.primary_focus_area :: groupKeysAux es (e.primary_focus_area :: seen) := by
        simp [groupKeysAux, h]
      rw [hstep]
      refine List.Nodup.cons ?_ (ih _)
      intro hc
      exact ((groupKeysAux_mem es _ _).mp hc).2 (List.mem_cons_self _ _)

theorem groupKeys_nodup (pool : List Exercise) : (groupKeys pool).Nodup :=
  groupKeysAux_nodup pool []

/-! ### Lemmas about the guaranteed pass -/

theorem guaranteed_step_shape (N : Nat) (acc grp : List Exercise) :
    (grp = [] ∧ guaranteed_step N acc grp = acc) ∨
    (∃ e rest, grp = e :: rest ∧
      (guaranteed_step N acc grp = acc ++ [e] ∨
       ∃ e2 rest2, rest = e2 :: rest2 ∧ guaranteed_step N acc grp = acc ++ [e, e2])) := by
  match grp with
  | [] => exact Or.inl ⟨rfl, rfl⟩
  | [e] => exact Or.inr ⟨e, [], rfl, Or.inl rfl⟩
  | e :: e2 :: rest2 =>
    refine Or.inr ⟨e, e2 :: rest2, rfl, ?_⟩
    have hunfold : guaranteed_step N acc (e :: e2 :: rest2) =
        if (acc ++ [e]).length < N then (acc ++ [e]) ++ [e2] else acc ++ [e] := rfl
    by_cases h : (acc ++ [e]).length < N
    · refine Or.inr ⟨e2, rest2, rfl, ?_⟩
      rw [hunfold, if_pos h]
      simp
    · exact Or.inl (by rw [hunfold, if_neg h])

theorem guaranteed_step_acc_mem (N : Nat) (acc grp : List Exercise)
    (x : Exercise) (hx : x ∈ acc) : x ∈ guaranteed_step N acc grp := by
  rcases guaranteed_step_shape N acc grp with ⟨_, heq⟩ | ⟨e, rest, _, heq | ⟨e2, rest2, _, heq⟩⟩ <;>
    rw [heq] <;> simp [hx]

theorem guaranteed_step_mem (N : Nat) (acc grp : List Exercise)
    (x : Exercise) (hx : x ∈ guaranteed_step N acc grp) : x ∈ acc ∨ x ∈ grp := by
  rcases guaranteed_step_shape N acc grp with ⟨_, heq⟩ | ⟨e, rest, hgrp, heq | ⟨e2, rest2, hrest, heq⟩⟩
  · rw [heq] at hx; exact Or.inl hx
  · rw [heq] at hx
    rcases List.mem_append.mp hx with h | h
    · exact Or.inl h
    · simp only [List.mem_singleton] at h
      exact Or.inr (hgrp ▸ h ▸ List.mem_cons_self _ _)
  · rw [heq] at hx
    rcases List.mem_append.mp hx with h | h
    · exact Or.inl h
    · subst hgrp; subst hrest
      rcases List.mem_cons.mp h with rfl | h2
      · exact Or.inr (List.mem_cons_self _ _)
      · simp only [List.mem_singleton] at h2
        exact Or.inr (h2 ▸ List.mem_cons_of_mem _ (List.mem_cons_self _ _))

/-- The guaranteed fold only ever adds pool members on top of the starting
accumulator. -/
theorem guaranteed_fold_mem (N : Nat) (pool : List Exercise) :
    ∀ (keys : List Nat) (acc : List Exercise) (x : Exercise),
      x ∈ keys.foldl
        (fun acc k => guaranteed_step N acc
          (pool.filter (fun e => e.primary_focus_area = k))) acc →
      x ∈ acc ∨ x ∈ pool := by
  intro keys
  induction keys with
  | nil => intro acc x hx; exact Or.inl hx
  | cons k ks ih =>
    intro acc x hx
    rcases ih _ x hx with h | h
    · rcases guaranteed_step_mem N acc _ x h with h2 | h2
      · exact Or.inl h2
      · exact Or.inr (List.mem_of_mem_filter h2)
    · exact Or.inr h

/-- The guaranteed fold keeps everything already in the accumulator. -/
theorem guaranteed_fold_acc_mem (N : Nat) (pool : List Exercise) :
    ∀ (keys : List Nat) (acc : List Exercise) (x : Exercise),
      x ∈ acc →
      x ∈ keys.foldl
        (fun acc k => guaranteed_step N acc
          (pool.filter (fun e => e.primary_focus_area = k))) acc := by
  intro keys
  induction keys with
  | nil => intro acc x hx; exact hx
  | cons k ks ih =>
    intro acc x hx
    exact ih _ x (guaranteed_step_acc_mem N acc _ x hx)

/-- Every key whose group is nonempty is represented in the fold output. -/
theorem guaranteed_fold_coverage (N : Nat) (pool : List Exercise) :
    ∀ (keys : List Nat) (acc : List Exercise) (k : Nat),
      k ∈ keys →
      pool.filter (fun e => e.primary_focus_area = k) ≠ [] →
      ∃ x ∈ keys.foldl
        (fun acc k => guaranteed_step N acc
          (pool.filter (fun e => e.primary_focus_area = k))) acc,
        x.primary_focus_area = k := by
  intro keys
  induction keys with
  | nil => intro acc k hk; cases hk
  | cons k0 ks ih =>
    intro acc k hk hne
    rcases List.mem_cons.mp hk with rfl | hk2
    · rcases hgrp : pool.filter (fun e => e.primary_focus_area = k) with _ | ⟨e, rest⟩
      · exact absurd hgrp hne
      · have he : e ∈ pool.filter (fun e => e.primary_focus_area = k) := by
          rw [hgrp]; exact List.mem_cons_self _ _
        have hprim : e.primary_focus_area = k := by
          have := List.of_mem_filter he
          simpa using this
        have hstep : e ∈ guaranteed_step N acc
            (pool.filter (fun e => e.primary_focus_area = k)) := by
          rcases guaranteed_step_shape N acc
              (pool.filter (fun e => e.primary_focus_area = k)) with
            ⟨hnil, _⟩ | ⟨e', rest', hgrp', heq | ⟨e2, rest2, _, heq⟩⟩
          · exact absurd hnil hne
          · have : e' = e := by rw [hgrp] at hgrp'; exact (List.cons.injEq .. ▸ hgrp').1.symm
            rw [heq, this]; simp
          · have : e' = e := by rw [hgrp] at hgrp'; exact (List.cons.injEq .. ▸ hgrp').1.symm
            rw [heq, this]; simp
        exact ⟨e, guaranteed_fold_acc_mem N pool ks _ e hstep, hprim⟩
    · exact ih _ k hk2 hne

/-- If the pool has pairwise distinct ids then so has the guaranteed list
produced by the fold, provided the keys are distinct, the accumulator is
sound and no accumulator entry carries one of the pending keys. -/
theorem guaranteed_fold_ids_nodup (N : Nat) (pool : List Exercise)
    (hpool : (pool.map Exercise.id).Nodup) :
    ∀ (keys : List Nat) (acc : List Exercise),
      keys.Nodup →
      (acc.map Exercise.id).Nodup →
      (∀ x ∈ acc, x ∈ pool) →
      (∀ x ∈ acc, x.primary_focus_area ∉ keys) →
      ((keys.foldl
        (fun acc k => guaranteed_step N acc
          (pool.filter (fun e => e.primary_focus_area = k))) acc).map Exercise.id).Nodup := by
  have hinj : ∀ x ∈ pool, ∀ y ∈ pool, x.id = y.id → x = y := by
    intro x hx y hy hxy
    exact List.inj_on_of_nodup_map hpool hx hy hxy
  intro keys
  induction keys with
  | nil => intro acc _ hacc _ _; exact hacc
  | cons k ks ih =>
    intro acc hkeys hacc haccp haccf
    have hkni : k ∉ ks := (List.nodup_cons.mp hkeys).1
    have hksnd : ks.Nodup := (List.nodup_cons.mp hkeys).2
    -- the accumulator after one step
    set grp := pool.filter (fun e => e.primary_focus_area = k) with hgrpdef
    have hgrp_sub : ∀ x ∈ grp, x ∈ pool := fun x hx => List.mem_of_mem_filter hx
    have hgrp_prim : ∀ x ∈ grp, x.primary_focus_area = k := by
      intro x hx; have := List.of_mem_filter hx; simpa using this
    have hfresh_id : ∀ x ∈ grp, x.id ∉ acc.map Exercise.id := by
      intro x hx hmem
      rcases List.mem_map.mp hmem with ⟨a, ha, haid⟩
      have : a = x := hinj a (haccp a ha) x (hgrp_sub x hx) haid
      have : a.primary_focus_area = k := this ▸ hgrp_prim x hx
      exact (haccf a ha) (this ▸ List.mem_cons_self _ _)
    have hstep_nodup : ((guaranteed_step N acc grp).map Exercise.id).Nodup := by
      rcases guaranteed_step_shape N acc grp with
        ⟨_, heq⟩ | ⟨e, rest, hgrp, heq | ⟨e2, rest2, hrest, heq⟩⟩
      · rw [heq]; exact hacc
      · rw [heq]
        simp only [List.map_append, List.map_cons, List.map_nil]
        rw [List.nodup_append]
        refine ⟨hacc, List.nodup_singleton _, ?_⟩
        intro a ha hb
        simp only [List.mem_singleton] at hb
        subst hb
        exact hfresh_id e (hgrp ▸ List.mem_cons_self _ _) ha
      · rw [heq]
        have hemem : e ∈ grp := hgrp ▸ List.mem_cons_self _ _
        have he2mem : e2 ∈ grp := by
          rw [hgrp, hrest]; exact List.mem_cons_of_mem _ (List.mem_cons_self _ _)
        have hgrpnd : grp.Nodup :=
          List.Nodup.filter _ (List.Nodup.of_map Exercise.id hpool)
        have hne : e ≠ e2 := by
          intro hcon
          rw [hgrp, hrest] at hgrpnd
          rcases List.nodup_cons.mp hgrpnd with ⟨hni, _⟩
          exact hni (hcon ▸ List.mem_cons_self _ _)
        have hneid : e.id ≠ e2.id := by
          intro hcon
          exact hne (hinj e (hgrp_sub e hemem) e2 (hgrp_sub e2 he2mem) hcon)
        simp only [List.map_append, List.map_cons, List.map_nil]
        rw [List.nodup_append]
        refine ⟨hacc, ?_, ?_⟩
        · simp [hneid]
        · intro a ha hb
          simp only [List.mem_cons, List.mem_singleton, List.not_mem_nil, or_false] at hb
          rcases hb with rfl | rfl
          · exact hfresh_id e hemem ha
          · exact hfresh_id e2 he2mem ha
    refine ih _ hksnd hstep_nodup ?_ ?_
    · intro x hx
      rcases guaranteed_step_mem N acc grp x hx with h | h
      · exact haccp x h
      · exact hgrp_sub x h
    · intro x hx
      rcases guaranteed_step_mem N acc grp x hx with h | h
      · intro hc; exact haccf x h (List.mem_cons_of_mem _ hc)
      · rw [hgrp_prim x h]; exact hkni

theorem guaranteed_exercises_subset (N : Nat) (pool : List Exercise) :
    ∀ x ∈ guaranteed_exercises N pool, x ∈ pool := by
  intro x hx
  rcases guaranteed_fold_mem N pool (groupKeys pool) [] x hx with h | h
  · cases h
  · exact h

theorem guaranteed_exercises_coverage (N : Nat) (pool : List Exercise) (k : Nat)
    (hk : k ∈ groupKeys pool) :
    ∃ x ∈ guaranteed_exercises N pool, x.primary_focus_area = k := by
  rcases (groupKeys_mem pool k).mp hk with ⟨e, he, hpe⟩
  have hne : pool.filter (fun e => e.primary_focus_area = k) ≠ [] := by
    have : e ∈ pool.filter (fun e => e.primary_focus_area = k) :=
      List.mem_filter.mpr ⟨he, by simp [hpe]⟩
    exact List.ne_nil_of_mem this
  exact guaranteed_fold_coverage N pool (groupKeys pool) [] k hk hne

theorem guaranteed_exercises_ids_nodup (N : Nat) (pool : List Exercise)
    (hpool : (pool.map Exercise.id).Nodup) :
    ((guaranteed_exercises N pool).map Exercise.id).Nodup := by
  refine guaranteed_fold_ids_nodup N pool hpool (groupKeys pool) []
    (groupKeys_nodup pool) (by simp) (by simp) (by simp)

theorem length_filter_partition {α : Type} (l : List α) (p : α → Bool) :
    (l.filter p).length + (l.filter (fun a => !(p a))).length = l.length := by
  induction l with
  | nil => simp
  | cons x xs ih =>
    by_cases h : p x = true
    · simp [List.filter_cons, h]
      omega
    · have h2 : p x = false := by revert h; cases p x <;> simp
      simp [List.filter_cons, h2]
      omega

theorem remaining_pool_length (N : Nat) (pool : List Exercise)
    (hpool : (pool.map Exercise.id).Nodup) :
    pool.length = (guaranteed_exercises N pool).length + (remaining_pool N pool).length := by
  have hinj : ∀ x ∈ pool, ∀ y ∈ pool, x.id = y.id → x = y := by
    intro x hx y hy hxy
    exact List.inj_on_of_nodup_map hpool hx hy hxy
  set g := guaranteed_exercises N pool with hgdef
  set gids := g.map Exercise.id with hgidsdef
  have hpart := length_filter_partition pool (fun e => decide (e.id ∈ gids))
  have hrem : remaining_pool N pool =
      pool.filter (fun e => !(decide (e.id ∈ gids))) := by
    unfold remaining_pool
    rw [← hgdef, ← hgidsdef]
    apply List.filter_congr
    intro e _
    simp [decide_not]
  have hglen : (pool.filter (fun e => decide (e.id ∈ gids))).length = g.length := by
    have hgnd : g.Nodup := List.Nodup.of_map _ (guaranteed_exercises_ids_nodup N pool hpool)
    have hfnd : (pool.filter (fun e => decide (e.id ∈ gids))).Nodup :=
      List.Nodup.filter _ (List.Nodup.of_map Exercise.id hpool)
    have hsub1 : g ⊆ pool.filter (fun e => decide (e.id ∈ gids)) := by
      intro x hx
      refine List.mem_filter.mpr ⟨guaranteed_exercises_subset N pool x hx, ?_⟩
      simp only [decide_eq_true_eq]
      exact List.mem_map_of_mem Exercise.id hx
    have hsub2 : pool.filter (fun e => decide (e.id ∈ gids)) ⊆ g := by
      intro x hx
      rcases List.mem_filter.mp hx with ⟨hxp, hxid⟩
      simp only [decide_eq_true_eq] at hxid
      rcases List.mem_map.mp hxid with ⟨y, hy, hyid⟩
      have : x = y := hinj x hxp y (guaranteed_exercises_subset N pool y hy) hyid.symm
      exact this ▸ hy
    exact ((List.subperm_of_subset hfnd hsub2).antisymm
      (List.subperm_of_subset hgnd hsub1)).length_eq
  rw [hrem]
  omega

theorem fixed_from_remaining_le (N R : Nat) (pool : List Exercise) :
    fixed_from_remaining N R pool ≤ remaining_needed N pool := by
  unfold fixed_from_remaining
  have hmul : remaining_needed N pool * (100 - R) ≤ 100 * remaining_needed N pool := by
    calc remaining_needed N pool * (100 - R)
        ≤ remaining_needed N pool * 100 := Nat.mul_le_mul_left _ (Nat.sub_le _ _)
      _ = 100 * remaining_needed N pool := Nat.mul_comm _ _
  omega

theorem compose_final_length (N R : Nat)
    (shuffleRandom shuffleFinal : List Exercise → List Exercise)
    (hsR : ∀ l, (shuffleRandom l).Perm l) (hsF : ∀ l, (shuffleFinal l).Perm l)
    (pool : List Exercise) (hpool : (pool.map Exercise.id).Nodup) :
    (compose_final N R shuffleRandom shuffleFinal pool).length = min N pool.length := by
  have hsplit := remaining_pool_length N pool hpool
  have hffle := fixed_from_remaining_le N R pool
  have hrn : remaining_needed N pool = N - (guaranteed_exercises N pool).length := rfl
  unfold compose_final
  rw [(hsF _).length_eq]
  by_cases hcond : (guaranteed_exercises N pool).length < N ∧ remaining_pool N pool ≠ []
  · rw [if_pos hcond]
    have hr1 : 0 < (remaining_pool N pool).length := List.length_pos.mpr hcond.2
    rcases hcond with ⟨hlt, _⟩
    simp only [List.length_append, List.length_take, List.length_drop, (hsR _).length_eq]
    omega
  · rw [if_neg hcond]
    rw [List.length_take]
    have hsplit2 : ¬((guaranteed_exercises N pool).length < N) ∨ remaining_pool N pool = [] := by
      by_cases h1 : (guaranteed_exercises N pool).length < N
      · right; by_contra h2; exact hcond ⟨h1, h2⟩
      · left; exact h1
    rcases hsplit2 with h | h
    · omega
    · have hz : (remaining_pool N pool).length = 0 := by rw [h]; rfl
      omega

theorem compose_final_mem (N R : Nat)
    (shuffleRandom shuffleFinal : List Exercise → List Exercise)
    (hsR : ∀ l, (shuffleRandom l).Perm l) (hsF : ∀ l, (shuffleFinal l).Perm l)
    (pool : List Exercise) :
    ∀ e ∈ compose_final N R shuffleRandom shuffleFinal pool, e ∈ pool := by
  intro e he
  unfold compose_final at he
  rw [(hsF _).mem_iff] at he
  have hremsub : ∀ x ∈ remaining_pool N pool, x ∈ pool := by
    intro x hx
    exact List.mem_of_mem_filter hx
  by_cases hcond : (guaranteed_exercises N pool).length < N ∧ remaining_pool N pool ≠ []
  · rw [if_pos hcond] at he
    rcases List.mem_append.mp he with he2 | he2
    · rcases List.mem_append.mp he2 with he3 | he3
      · exact guaranteed_exercises_subset N pool e he3
      · exact hremsub e (List.take_subset _ _ he3)
    · have h1 : e ∈ shuffleRandom ((remaining_pool N pool).drop (fixed_from_remaining N R pool)) :=
        List.take_subset _ _ he2
      have h2 : e ∈ (remaining_pool N pool).drop (fixed_from_remaining N R pool) :=
        (hsR _).mem_iff.mp h1
      exact hremsub e (List.drop_subset _ _ h2)
  · rw [if_neg hcond] at he
    exact guaranteed_exercises_subset N pool e (List.take_subset _ _ he)

theorem compose_final_guaranteed_mem (N R : Nat)
    (shuffleRandom shuffleFinal : List Exercise → List Exercise)
    (hsF : ∀ l, (shuffleFinal l).Perm l)
    (pool : List Exercise) (hG : (guaranteed_exercises N pool).length ≤ N) :
    ∀ e ∈ guaranteed_exercises N pool,
      e ∈ compose_final N R shuffleRandom shuffleFinal pool := by
  intro e he
  unfold compose_final
  rw [(hsF _).mem_iff]
  by_cases hcond : (guaranteed_exercises N pool).length < N ∧ remaining_pool N pool ≠ []
  · rw [if_pos hcond]
    exact List.mem_append.mpr (Or.inl (List.mem_append.mpr (Or.inl he)))
  · rw [if_neg hcond]
    rw [List.take_of_length_le hG]
    exact he

/-! ## Claim C3 -/

/-- C3: in focus-area mode, an empty eligible pool (after exclusion
filtering) is reported as an error, never as an empty success list, and a
successful response has exactly min(N, pool size) exercises. The id-nodup
hypothesis is the DISTINCT ON (id) contract of get_recommended_exercises;
the two permutation hypotheses model random.shuffle. -/
theorem generate_workout_output_length (N R : Nat)
    (shuffleRandom shuffleFinal : List Exercise → List Exercise)
    (hsR : ∀ l, (shuffleRandom l).Perm l) (hsF : ∀ l, (shuffleFinal l).Perm l)
    (all_suitable : List Exercise) (excluded_ids : List Nat)
    (hall : (all_suitable.map Exercise.id).Nodup) :
    (eligible_pool all_suitable excluded_ids = [] →
      generate_workout_focus_mode N R shuffleRandom shuffleFinal all_suitable excluded_ids =
        Except.error ApiError.emptyCandidatePool) ∧
    (∀ out,
      generate_workout_focus_mode N R shuffleRandom shuffleFinal all_suitable excluded_ids =
        Except.ok out →
      out.length = min N (eligible_pool all_suitable excluded_ids).length) := by
  have hpool : ((eligible_pool all_suitable excluded_ids).map Exercise.id).Nodup := by
    have hsorted : ((sortById all_suitable).map Exercise.id).Nodup := by
      have hperm : (sortById all_suitable).Perm all_suitable :=
        List.perm_insertionSort _ all_suitable
      exact (hperm.map Exercise.id).nodup_iff.mpr hall
    exact List.Nodup.sublist ((List.filter_sublist _).map Exercise.id) hsorted
  constructor
  · intro hempty
    simp [generate_workout_focus_mode, hempty]
  · intro out hout
    by_cases hempty : eligible_pool all_suitable excluded_ids = []
    · simp [generate_workout_focus_mode, hempty] at hout
    · simp only [generate_workout_focus_mode, hempty, if_neg, ite_false] at hout
      have : compose_final N R shuffleRandom shuffleFinal
          (eligible_pool all_suitable excluded_ids) = out := by
        exact (Except.ok.injEq .. ▸ hout :)
      rw [← this]
      exact compose_final_length N R shuffleRandom shuffleFinal hsR hsF _ hpool

/-- Witness for C3: an eligible pool of two exercises with N = 4 yields a
2-exercise success, and a fully excluded pool yields the
EmptyCandidatePool error. -/
theorem generate_workout_output_length_witness :
    generate_workout_focus_mode 4 0 (fun l => l) (fun l => l)
      [⟨1, 1⟩] [1] = Except.error ApiError.emptyCandidatePool ∧
    ([⟨1, 1⟩, ⟨3, 2⟩] : List Exercise).length =
      min 4 (eligible_pool [⟨1, 1⟩, ⟨2, 1⟩, ⟨3, 2⟩] [2]).length := by
  constructor
  · exact (generate_workout_output_length 4 0 (fun l => l) (fun l => l)
      (fun l => List.Perm.refl l) (fun l => List.Perm.refl l)
      [⟨1, 1⟩] [1] (by decide)).1 (by decide)
  · exact (generate_workout_output_length 4 0 (fun l => l) (fun l => l)
      (fun l => List.Perm.refl l) (fun l => List.Perm.refl l)
      [⟨1, 1⟩, ⟨2, 1⟩, ⟨3, 2⟩] [2] (by decide)).2 [⟨1, 1⟩, ⟨3, 2⟩] (by decide)

/-! ## Claim C6 -/

/-- C6: in both focus-area mode and direct-exercises mode, no exercise
whose id is in the union exclusion set (forever-scoped or today-scoped
matching today) appears in a returned exercise list. -/
theorem excluded_exercises_never_in_output (N R : Nat)
    (shuffleRandom shuffleFinal : List Exercise → List Exercise)
    (hsR : ∀ l, (shuffleRandom l).Perm l) (hsF : ∀ l, (shuffleFinal l).Perm l)
    (all_suitable direct_exercises : List Exercise) (excluded_ids : List Nat) :
    (∀ out,
      generate_workout_focus_mode N R shuffleRandom shuffleFinal all_suitable excluded_ids =
        Except.ok out →
      ∀ e ∈ out, e.id ∉ excluded_ids) ∧
    (∀ out,
      generate_workout_direct_mode direct_exercises excluded_ids = Except.ok out →
      ∀ e ∈ out, e.id ∉ excluded_ids) := by
  constructor
  · intro out hout e he
    by_cases hempty : eligible_pool all_suitable excluded_ids = []
    · simp [generate_workout_focus_mode, hempty] at hout
    · simp only [generate_workout_focus_mode, hempty, if_neg, ite_false] at hout
      have hout_eq : compose_final N R shuffleRandom shuffleFinal
          (eligible_pool all_suitable excluded_ids) = out :=
        (Except.ok.injEq .. ▸ hout :)
      have hmem : e ∈ eligible_pool all_suitable excluded_ids :=
        compose_final_mem N R shuffleRandom shuffleFinal hsR hsF _ e (hout_eq ▸ he)
      have := List.of_mem_filter hmem
      simpa using this
  · intro out hout e he
    simp only [generate_workout_direct_mode] at hout
    by_cases hnil : direct_exercises = []
    · rw [if_pos hnil] at hout; cases hout
    · rw [if_neg hnil] at hout
      by_cases hflt : direct_exercises.filter (fun e => e.id ∉ excluded_ids) = []
      · rw [if_pos hflt] at hout; cases hout
      · rw [if_neg hflt] at hout
        have hout_eq : direct_exercises.filter (fun e => e.id ∉ excluded_ids) = out :=
          (Except.ok.injEq .. ▸ hout :)
        have hmem : e ∈ direct_exercises.filter (fun e => e.id ∉ excluded_ids) :=
          hout_eq ▸ he
        have := List.of_mem_filter hmem
        simpa using this

/-- Witness for C6: with exclusion set [1], neither the focus-mode output
(which is [exercise 2]) nor the direct-mode output (which is [exercise 5])
contains the excluded id 1. -/
theorem excluded_exercises_never_in_output_witness :
    ((⟨2, 2⟩ : Exercise).id ∉ ([1] : List Nat)) ∧
    ((⟨5, 0⟩ : Exercise).id ∉ ([1] : List Nat)) := by
  constructor
  · exact (excluded_exercises_never_in_output 4 0 (fun l => l) (fun l => l)
      (fun l => List.Perm.refl l) (fun l => List.Perm.refl l)
      [⟨1, 1⟩, ⟨2, 2⟩] [⟨5, 0⟩, ⟨1, 0⟩] [1]).1 [⟨2, 2⟩] (by decide) ⟨2, 2⟩ (by decide)
  · exact (excluded_exercises_never_in_output 4 0 (fun l => l) (fun l => l)
      (fun l => List.Perm.refl l) (fun l => List.Perm.refl l)
      [⟨1, 1⟩, ⟨2, 2⟩] [⟨5, 0⟩, ⟨1, 0⟩] [1]).2 [⟨5, 0⟩] (by decide) ⟨5, 0⟩ (by decide)

/-! ## Claim C2 -/

/-- C2 counterexample: with a 10-minute session (so N = 2), requested focus
areas 1, 2, 3 and four eligible exercises (two tagged with area 1, one each
with areas 2 and 3, none excluded), every requested area has an eligible
candidate, yet the returned list is exactly the two area-1 exercises: the
guaranteed pass collects four exercises and the final truncation to N drops
the representatives of areas 2 and 3, so the output's focus-area set is not
a superset of the request. -/
theorem focus_area_coverage_counterexample :
    (∀ a ∈ ([1, 2, 3] : List Nat),
      ∃ e ∈ eligible_pool [⟨1, 1⟩, ⟨2, 1⟩, ⟨3, 2⟩, ⟨4, 3⟩] [],
        e.primary_focus_area = a) ∧
    generate_workout_focus_mode (total_exercises_wanted 10) 0 (fun l => l) (fun l => l)
      [⟨1, 1⟩, ⟨2, 1⟩, ⟨3, 2⟩, ⟨4, 3⟩] [] = Except.ok [⟨1, 1⟩, ⟨2, 1⟩] ∧
    ¬(∀ a ∈ ([1, 2, 3] : List Nat),
      ∃ e ∈ ([⟨1, 1⟩, ⟨2, 1⟩] : List Exercise), e.primary_focus_area = a) := by
  decide

/-- C2 amended: whenever every requested focus area has at least one
eligible exercise in the pool surviving the filters and exclusions, and the
guaranteed pass does not overshoot the target count N (so the final
truncation keeps it intact), the focus-area set of the returned list is a
superset of the requested focus-area set. -/
theorem focus_area_coverage_amended (N R : Nat)
    (shuffleRandom shuffleFinal : List Exercise → List Exercise)
    (hsF : ∀ l, (shuffleFinal l).Perm l)
    (all_suitable : List Exercise) (excluded_ids : List Nat)
    (requested : List Nat) (out : List Exercise)
    (hreq : ∀ a ∈ requested,
      ∃ e ∈ eligible_pool all_suitable excluded_ids, e.primary_focus_area = a)
    (hG : (guaranteed_exercises N (eligible_pool all_suitable excluded_ids)).length ≤ N)
    (hok : generate_workout_focus_mode N R shuffleRandom shuffleFinal
      all_suitable excluded_ids = Except.ok out) :
    ∀ a ∈ requested, ∃ e ∈ out, e.primary_focus_area = a := by
  intro a ha
  rcases hreq a ha with ⟨e0, he0, hpe0⟩
  have hempty : eligible_pool all_suitable excluded_ids ≠ [] := List.ne_nil_of_mem he0
  have hkey : a ∈ groupKeys (eligible_pool all_suitable excluded_ids) :=
    (groupKeys_mem _ _).mpr ⟨e0, he0, hpe0⟩
  rcases guaranteed_exercises_coverage N _ a hkey with ⟨g, hg, hpg⟩
  have hout_eq : compose_final N R shuffleRandom shuffleFinal
      (eligible_pool all_suitable excluded_ids) = out := by
    simp only [generate_workout_focus_mode, hempty, if_neg, ite_false] at hok
    exact (Except.ok.injEq .. ▸ hok :)
  have hgout := compose_final_guaranteed_mem N R shuffleRandom shuffleFinal hsF _ hG g hg
  exact ⟨g, hout_eq ▸ hgout, hpg⟩

/-- Witness for C2 amended: with N = 4 and one eligible exercise per
requested area 1 and 2, the output [exercise 1, exercise 3] covers both. -/
theorem focus_area_coverage_amended_witness :
    (∃ e ∈ ([⟨1, 1⟩, ⟨3, 2⟩] : List Exercise), e.primary_focus_area = 1) ∧
    (∃ e ∈ ([⟨1, 1⟩, ⟨3, 2⟩] : List Exercise), e.primary_focus_area = 2) := by
  constructor
  · exact focus_area_coverage_amended 4 0 (fun l => l) (fun l => l)
      (fun l => List.Perm.refl l) [⟨1, 1⟩, ⟨3, 2⟩] [] [1, 2] [⟨1, 1⟩, ⟨3, 2⟩]
      (by decide) (by decide) (by decide) 1 (by decide)
  · exact focus_area_coverage_amended 4 0 (fun l => l) (fun l => l)
      (fun l => List.Perm.refl l) [⟨1, 1⟩, ⟨3, 2⟩] [] [1, 2] [⟨1, 1⟩, ⟨3, 2⟩]
      (by decide) (by decide) (by decide) 2 (by decide)

/-! ## DayContentMutator: swap and reorder

A user's routine-day table is modelled as the list of
(day_number, content) rows of the active routine. The SQL operations read
the rows for the involved day numbers, delete their content links and
re-insert them according to the new arrangement; the net effect on the
day_number-to-content mapping is captured below. -/

/-- The content stored for a given day number, if that day exists
(first matching row, unique under the day-number uniqueness invariant). -/
def lookupDay (days : List (Nat × DaySlot)) (n : Nat) : Option DaySlot :=
  (days.find? (fun d => d.1 = n)).map Prod.snd

/-- Embeds swap_routine_days_content (app/db/queries.py): fetch the rows
whose day_number is ANY of the two given days; if fewer or more than two
rows come back this raises (ValueError, the NotFound kind); otherwise both
days' content (mode, focus areas, direct exercises with order) is
exchanged and every other row is untouched. Note that when from_day equals
to_day only one row can match, so the call fails rather than succeeding as
a no-op. -/
def swap_routine_days_content (days : List (Nat × DaySlot)) (from_day to_day : Nat) :
    Except ApiError (List (Nat × DaySlot)) :=
  if (days.filter (fun d => d.1 = from_day ∨ d.1 = to_day)).length = 2 then
    match lookupDay days from_day, lookupDay days to_day with
    | some from_data, some to_data =>
      Except.ok (days.map (fun d =>
        (d.1,
          if d.1 = from_day then to_data
          else if d.1 = to_day then from_data
          else d.2)))
    | _, _ => Except.error ApiError.notFound
  else Except.error ApiError.notFound

/-- The affected_days list of reorder_routine_days_content: the inclusive
range between source and target, in ascending order. -/
def reorder_affected_days (source_day target_position : Nat) : List Nat :=
  if source_day < target_position then
    List.range' source_day (target_position - source_day + 1)
  else
    List.range' target_position (source_day - target_position + 1)

/-- Embeds reorder_routine_days_content (app/db/queries.py): equal source
and target is an immediate no-op success with an empty affected list;
otherwise all days in the inclusive source-target range must exist (else
ValueError, the NotFound kind); the source day's content relocates to the
target position and the days between shift by one toward the source; rows
outside the range are untouched. The new arrangement is expressed as the
per-day content map derived from the source's new_arrangement dict. -/
def reorder_routine_days_content (days : List (Nat × DaySlot))
    (source_day target_position : Nat) :
    Except ApiError (List (Nat × DaySlot) × List Nat) :=
  if source_day = target_position then
    Except.ok (days, [])
  else if (days.filter
      (fun d => d.1 ∈ reorder_affected_days source_day target_position)).length =
      (reorder_affected_days source_day target_position).length then
    Except.ok
      ((days.map (fun d =>
        (d.1,
          if d.1 = target_position then (lookupDay days source_day).getD d.2
          else if source_day < target_position ∧
              source_day ≤ d.1 ∧ d.1 < target_position then
            (lookupDay days (d.1 + 1)).getD d.2
          else if target_position < source_day ∧
              target_position < d.1 ∧ d.1 ≤ source_day then
            (lookupDay days (d.1 - 1)).getD d.2
          else d.2))),
       reorder_affected_days source_day target_position)
  else Except.error ApiError.notFound

/-! ### Lemmas about day lookups -/

theorem lookupDay_map_fst_preserving (days : List (Nat × DaySlot))
    (g : Nat → DaySlot → DaySlot) (n : Nat) :
    lookupDay (days.map (fun d => (d.1, g d.1 d.2))) n =
      (lookupDay days n).map (g n) := by
  induction days with
  | nil => rfl
  | cons d ds ih =>
    by_cases h : d.1 = n
    · unfold lookupDay
      rw [List.map_cons, List.find?_cons_of_pos _ (by simpa using h),
        List.find?_cons_of_pos _ (by simpa using h)]
      show some (g d.1 d.2) = some (g n d.2)
      rw [h]
    · unfold lookupDay
      rw [List.map_cons, List.find?_cons_of_neg _ (by simpa using h),
        List.find?_cons_of_neg _ (by simpa using h)]
      exact ih

theorem lookupDay_isSome_of_mem (days : List (Nat × DaySlot)) (n : Nat) (s : DaySlot)
    (h : (n, s) ∈ days) : ∃ s2, lookupDay days n = some s2 := by
  have hsome : (days.find? (fun d => d.1 = n)).isSome = true := by
    rw [List.find?_isSome]
    exact ⟨(n, s), h, by simp⟩
  rcases Option.isSome_iff_exists.mp hsome with ⟨d, hd⟩
  exact ⟨d.2, by unfold lookupDay; rw [hd]; rfl⟩

theorem filter_fst_eq_length_le_one (days : List (Nat × DaySlot)) (n : Nat)
    (hnd : (days.map Prod.fst).Nodup) :
    (days.filter (fun d => d.1 = n)).length ≤ 1 := by
  induction days with
  | nil => simp
  | cons d ds ih =>
    simp only [List.map_cons, List.nodup_cons] at hnd
    by_cases h : d.1 = n
    · have hnil : ds.filter (fun x => decide (x.1 = n)) = [] := by
        rw [List.filter_eq_nil_iff]
        intro x hx
        simp only [decide_eq_true_eq]
        intro hxn
        apply hnd.1
        rw [h, ← hxn]
        exact List.mem_map_of_mem Prod.fst hx
      simp [List.filter_cons, h, hnil]
    · simp only [List.filter_cons, decide_eq_true_eq, h, ite_false]
      exact ih hnd.2

theorem filter_mem_affected_present (days : List (Nat × DaySlot)) (affected : List Nat)
    (hnd : (days.map Prod.fst).Nodup) (_haff : affected.Nodup)
    (hlen : (days.filter (fun d => d.1 ∈ affected)).length = affected.length) :
    ∀ n ∈ affected, ∃ s, lookupDay days n = some s := by
  set dd := days.filter (fun d => d.1 ∈ affected) with hdd
  have hsub : dd.map Prod.fst ⊆ affected := by
    intro m hm
    rcases List.mem_map.mp hm with ⟨row, hrow, hfst⟩
    have := List.of_mem_filter hrow
    rw [← hfst]
    simpa using this
  have hddnd : (dd.map Prod.fst).Nodup :=
    List.Nodup.sublist ((List.filter_sublist days).map Prod.fst) hnd
  have hlen2 : affected.length ≤ (dd.map Prod.fst).length := by
    rw [List.length_map]
    omega
  have hperm : (dd.map Prod.fst).Perm affected :=
    List.Subperm.perm_of_length_le (List.subperm_of_subset hddnd hsub) hlen2
  intro n hn
  have hmem : n ∈ dd.map Prod.fst := hperm.mem_iff.mpr hn
  rcases List.mem_map.mp hmem with ⟨row, hrow, hfst⟩
  have hrowdays : row ∈ days := List.mem_of_mem_filter hrow
  refine lookupDay_isSome_of_mem days n row.2 ?_
  rw [← hfst]
  exact hrowdays

theorem mem_reorder_affected_days (source_day target_position n : Nat) :
    n ∈ reorder_affected_days source_day target_position ↔
      min source_day target_position ≤ n ∧ n ≤ max source_day target_position := by
  unfold reorder_affected_days
  by_cases h : source_day < target_position
  · rw [if_pos h, List.mem_range'_1]
    omega
  · rw [if_neg h, List.mem_range'_1]
    omega

theorem reorder_affected_days_nodup (source_day target_position : Nat) :
    (reorder_affected_days source_day target_position).Nodup := by
  unfold reorder_affected_days
  by_cases h : source_day < target_position
  · rw [if_pos h]; exact List.nodup_range' _ _
  · rw [if_neg h]; exact List.nodup_range' _ _

/-! ## Claim C9 -/

/-- C9 counterexample: swapping a day with itself does not succeed as a
no-op: only one row matches the ANY filter, the two-rows check fails and
the function raises (ValueError, surfaced as NotFound here), on any routine
that contains the day. Shown on a 5-day routine at day 2. -/
theorem swap_days_same_day_counterexample :
    swap_routine_days_content
      [(1, ⟨ExerciseMode.focus_areas, [10], []⟩),
       (2, ⟨ExerciseMode.focus_areas, [20], []⟩),
       (3, ⟨ExerciseMode.direct_exercises, [], [31, 32]⟩),
       (4, ⟨ExerciseMode.direct_exercises, [], [41]⟩),
       (5, ⟨ExerciseMode.focus_areas, [50], []⟩)] 2 2 =
      Except.error ApiError.notFound := by
  decide

/-- C9 amended: a successful swap implies the two day numbers are distinct
(equal days fail instead of no-op succeeding); the two named slots receive
each other's full content, every other slot is unchanged, and the set of
day numbers is untouched. The mode fields travel with the content, which
covers all four mode-combination cases. -/
theorem swap_days_exchanges_exactly_two
    (days newDays : List (Nat × DaySlot)) (from_day to_day : Nat)
    (hnd : (days.map Prod.fst).Nodup)
    (hok : swap_routine_days_content days from_day to_day = Except.ok newDays) :
    from_day ≠ to_day ∧
    lookupDay newDays from_day = lookupDay days to_day ∧
    lookupDay newDays to_day = lookupDay days from_day ∧
    (∀ n, n ≠ from_day → n ≠ to_day → lookupDay newDays n = lookupDay days n) ∧
    newDays.map Prod.fst = days.map Prod.fst := by
  have hne : from_day ≠ to_day := by
    intro heq
    subst heq
    unfold swap_routine_days_content at hok
    have hle := filter_fst_eq_length_le_one days from_day hnd
    have hone : (days.filter (fun d => d.1 = from_day ∨ d.1 = from_day)).length ≤ 1 := by
      have hcongr : days.filter (fun d => decide (d.1 = from_day ∨ d.1 = from_day)) =
          days.filter (fun d => decide (d.1 = from_day)) := by
        apply List.filter_congr
        intro d _
        simp
      rw [hcongr]
      exact hle
    rw [if_neg (by omega)] at hok
    exact Except.noConfusion hok
  unfold swap_routine_days_content at hok
  by_cases hlen : (days.filter (fun d => d.1 = from_day ∨ d.1 = to_day)).length = 2
  case neg =>
    rw [if_neg hlen] at hok
    exact absurd hok (by simp)
  rw [if_pos hlen] at hok
  rcases hfd : lookupDay days from_day with _ | from_data <;>
    rcases htd : lookupDay days to_day with _ | to_data <;>
    rw [hfd, htd] at hok
  · exact Except.noConfusion hok
  · exact Except.noConfusion hok
  · exact Except.noConfusion hok
  have hok2 : Except.ok (days.map (fun d =>
      (d.1,
        if d.1 = from_day then to_data
        else if d.1 = to_day then from_data
        else d.2))) = Except.ok newDays := hok
  have hnew : days.map (fun d =>
      (d.1,
        if d.1 = from_day then to_data
        else if d.1 = to_day then from_data
        else d.2)) = newDays := (Except.ok.injEq .. ▸ hok2 :)
  have hmapped := lookupDay_map_fst_preserving days
    (fun m s => if m = from_day then to_data else if m = to_day then from_data else s)
  refine ⟨hne, ?_, ?_, ?_, ?_⟩
  · rw [← hnew]
    refine (hmapped from_day).trans ?_
    rw [hfd]
    simp
  · rw [← hnew]
    refine (hmapped to_day).trans ?_
    rw [htd]
    simp [Ne.symm hne]
  · intro n hn1 hn2
    rw [← hnew]
    refine (hmapped n).trans ?_
    cases hl : lookupDay days n with
    | none => rfl
    | some s =>
      show some (if n = from_day then to_data else if n = to_day then from_data else s) = some s
      rw [if_neg hn1, if_neg hn2]
  · rw [← hnew, List.map_map]
    exact List.map_congr_left (fun d _ => rfl)

/-- Witness for C9 amended: on the 5-day routine with contents A..E,
swapping days 2 and 4 (a focus-areas slot against a direct-exercises slot,
one of the four mode combinations) puts content D at day 2 and content B at
day 4, leaves day 3 unchanged and preserves the day numbers. -/
theorem swap_days_exchanges_exactly_two_witness :
    lookupDay
      [(1, ⟨ExerciseMode.focus_areas, [10], []⟩),
       (2, ⟨ExerciseMode.direct_exercises, [], [41]⟩),
       (3, ⟨ExerciseMode.direct_exercises, [], [31, 32]⟩),
       (4, ⟨ExerciseMode.focus_areas, [20], []⟩),
       (5, ⟨ExerciseMode.focus_areas, [50], []⟩)] 2 =
      some ⟨ExerciseMode.direct_exercises, [], [41]⟩ ∧
    lookupDay
      [(1, ⟨ExerciseMode.focus_areas, [10], []⟩),
       (2, ⟨ExerciseMode.direct_exercises, [], [41]⟩),
       (3, ⟨ExerciseMode.direct_exercises, [], [31, 32]⟩),
       (4, ⟨ExerciseMode.focus_areas, [20], []⟩),
       (5, ⟨ExerciseMode.focus_areas, [50], []⟩)] 3 =
      some ⟨ExerciseMode.direct_exercises, [], [31, 32]⟩ := by
  have h := swap_days_exchanges_exactly_two
    [(1, ⟨ExerciseMode.focus_areas, [10], []⟩),
     (2, ⟨ExerciseMode.focus_areas, [20], []⟩),
     (3, ⟨ExerciseMode.direct_exercises, [], [31, 32]⟩),
     (4, ⟨ExerciseMode.direct_exercises, [], [41]⟩),
     (5, ⟨ExerciseMode.focus_areas, [50], []⟩)]
    [(1, ⟨ExerciseMode.focus_areas, [10], []⟩),
     (2, ⟨ExerciseMode.direct_exercises, [], [41]⟩),
     (3, ⟨ExerciseMode.direct_exercises, [], [31, 32]⟩),
     (4, ⟨ExerciseMode.focus_areas, [20], []⟩),
     (5, ⟨ExerciseMode.focus_areas, [50], []⟩)]
    2 4 (by decide) (by decide)
  constructor
  · exact h.2.1.trans (by decide)
  · exact (h.2.2.2.1 3 (by decide) (by decide)).trans (by decide)

/-! ## Claim C8 -/

/-- C8: a successful reorder relocates the source day's full content to the
target position; every day between them (source side included) shifts by
one position toward the source; days outside the inclusive source-target
range keep their content; and the affected list is exactly that inclusive
range. -/
theorem reorder_days_shift_semantics
    (days newDays : List (Nat × DaySlot)) (affList : List Nat)
    (source_day target_position : Nat)
    (hnd : (days.map Prod.fst).Nodup)
    (hne : source_day ≠ target_position)
    (hok : reorder_routine_days_content days source_day target_position =
      Except.ok (newDays, affList)) :
    affList = reorder_affected_days source_day target_position ∧
    lookupDay newDays target_position = lookupDay days source_day ∧
    (∀ n, source_day < target_position → source_day ≤ n → n < target_position →
      lookupDay newDays n = lookupDay days (n + 1)) ∧
    (∀ n, target_position < source_day → target_position < n → n ≤ source_day →
      lookupDay newDays n = lookupDay days (n - 1)) ∧
    (∀ n, n < min source_day target_position ∨ max source_day target_position < n →
      lookupDay newDays n = lookupDay days n) := by
  unfold reorder_routine_days_content at hok
  rw [if_neg hne] at hok
  by_cases hlen : (days.filter
      (fun d => d.1 ∈ reorder_affected_days source_day target_position)).length =
      (reorder_affected_days source_day target_position).length
  case neg =>
    rw [if_neg hlen] at hok
    exact Except.noConfusion hok
  rw [if_pos hlen] at hok
  have hpresent := filter_mem_affected_present days
    (reorder_affected_days source_day target_position) hnd
    (reorder_affected_days_nodup source_day target_position) hlen
  have hpair : (days.map (fun d =>
      (d.1,
        if d.1 = target_position then (lookupDay days source_day).getD d.2
        else if source_day < target_position ∧
            source_day ≤ d.1 ∧ d.1 < target_position then
          (lookupDay days (d.1 + 1)).getD d.2
        else if target_position < source_day ∧
            target_position < d.1 ∧ d.1 ≤ source_day then
          (lookupDay days (d.1 - 1)).getD d.2
        else d.2)),
      reorder_affected_days source_day target_position) = (newDays, affList) :=
    (Except.ok.injEq .. ▸ hok :)
  have hnew := congrArg Prod.fst hpair
  have haff := congrArg Prod.snd hpair
  simp only at hnew haff
  have hmapped := lookupDay_map_fst_preserving days
    (fun m s =>
      if m = target_position then (lookupDay days source_day).getD s
      else if source_day < target_position ∧ source_day ≤ m ∧ m < target_position then
        (lookupDay days (m + 1)).getD s
      else if target_position < source_day ∧ target_position < m ∧ m ≤ source_day then
        (lookupDay days (m - 1)).getD s
      else s)
  have hsrc_mem : source_day ∈ reorder_affected_days source_day target_position := by
    rw [mem_reorder_affected_days]
    omega
  have htgt_mem : target_position ∈ reorder_affected_days source_day target_position := by
    rw [mem_reorder_affected_days]
    omega
  rcases hpresent source_day hsrc_mem with ⟨ssrc, hssrc⟩
  refine ⟨haff.symm, ?_, ?_, ?_, ?_⟩
  · rcases hpresent target_position htgt_mem with ⟨stgt, hstgt⟩
    rw [← hnew]
    refine (hmapped target_position).trans ?_
    rw [hstgt]
    show some (if target_position = target_position then
      (lookupDay days source_day).getD stgt else _) = _
    rw [if_pos rfl, hssrc]
    rfl
  · intro n hst hsn hnt
    have hn_mem : n ∈ reorder_affected_days source_day target_position := by
      rw [mem_reorder_affected_days]; omega
    have hn1_mem : n + 1 ∈ reorder_affected_days source_day target_position := by
      rw [mem_reorder_affected_days]; omega
    rcases hpresent n hn_mem with ⟨sn, hsn2⟩
    rcases hpresent (n + 1) hn1_mem with ⟨sn1, hsn1⟩
    rw [← hnew]
    refine (hmapped n).trans ?_
    rw [hsn2]
    show some (if n = target_position then (lookupDay days source_day).getD sn
      else if source_day < target_position ∧ source_day ≤ n ∧ n < target_position then
        (lookupDay days (n + 1)).getD sn
      else _) = _
    rw [if_neg (by omega), if_pos ⟨hst, hsn, hnt⟩, hsn1]
    rfl
  · intro n hts htn hns
    have hn_mem : n ∈ reorder_affected_days source_day target_position := by
      rw [mem_reorder_affected_days]; omega
    have hn1_mem : n - 1 ∈ reorder_affected_days source_day target_position := by
      rw [mem_reorder_affected_days]; omega
    rcases hpresent n hn_mem with ⟨sn, hsn2⟩
    rcases hpresent (n - 1) hn1_mem with ⟨sn1, hsn1⟩
    rw [← hnew]
    refine (hmapped n).trans ?_
    rw [hsn2]
    show some (if n = target_position then (lookupDay days source_day).getD sn
      else if source_day < target_position ∧ source_day ≤ n ∧ n < target_position then
        (lookupDay days (n + 1)).getD sn
      else if target_position < source_day ∧ target_position < n ∧ n ≤ source_day then
        (lookupDay days (n - 1)).getD sn
      else sn) = _
    rw [if_neg (by omega), if_neg (by omega), if_pos ⟨hts, htn, hns⟩, hsn1]
    rfl
  · intro n hout
    rw [← hnew]
    refine (hmapped n).trans ?_
    cases hl : lookupDay days n with
    | none => rfl
    | some s =>
      show some (if n = target_position then (lookupDay days source_day).getD s
        else if source_day < target_position ∧ source_day ≤ n ∧ n < target_position then
          (lookupDay days (n + 1)).getD s
        else if target_position < source_day ∧ target_position < n ∧ n ≤ source_day then
          (lookupDay days (n - 1)).getD s
        else s) = some s
      rw [if_neg (by omega), if_neg (by omega), if_neg (by omega)]

/-- Witness for C8: reorder(3, 1) on the 5-day routine with contents
A, B, C, D, E at days 1..5 succeeds with affected days [1, 2, 3] and yields
day1 = C, day2 = A, day3 = B, day4 = D, day5 = E. -/
theorem reorder_days_shift_semantics_witness :
    lookupDay
      [(1, ⟨ExerciseMode.direct_exercises, [], [31, 32]⟩),
       (2, ⟨ExerciseMode.focus_areas, [10], []⟩),
       (3, ⟨ExerciseMode.focus_areas, [20], []⟩),
       (4, ⟨ExerciseMode.direct_exercises, [], [41]⟩),
       (5, ⟨ExerciseMode.focus_areas, [50], []⟩)] 1 =
      some ⟨ExerciseMode.direct_exercises, [], [31, 32]⟩ ∧
    lookupDay
      [(1, ⟨ExerciseMode.direct_exercises, [], [31, 32]⟩),
       (2, ⟨ExerciseMode.focus_areas, [10], []⟩),
       (3, ⟨ExerciseMode.focus_areas, [20], []⟩),
       (4, ⟨ExerciseMode.direct_exercises, [], [41]⟩),
       (5, ⟨ExerciseMode.focus_areas, [50], []⟩)] 2 =
      some ⟨ExerciseMode.focus_areas, [10], []⟩ ∧
    lookupDay
      [(1, ⟨ExerciseMode.direct_exercises, [], [31, 32]⟩),
       (2, ⟨ExerciseMode.focus_areas, [10], []⟩),
       (3, ⟨ExerciseMode.focus_areas, [20], []⟩),
       (4, ⟨ExerciseMode.direct_exercises, [], [41]⟩),
       (5, ⟨ExerciseMode.focus_areas, [50], []⟩)] 3 =
      some ⟨ExerciseMode.focus_areas, [20], []⟩ ∧
    lookupDay
      [(1, ⟨ExerciseMode.direct_exercises, [], [31, 32]⟩),
       (2, ⟨ExerciseMode.focus_areas, [10], []⟩),
       (3, ⟨ExerciseMode.focus_areas, [20], []⟩),
       (4, ⟨ExerciseMode.direct_exercises, [], [41]⟩),
       (5, ⟨ExerciseMode.focus_areas, [50], []⟩)] 4 =
      some ⟨ExerciseMode.direct_exercises, [], [41]⟩ := by
  have h := reorder_days_shift_semantics
    [(1, ⟨ExerciseMode.focus_areas, [10], []⟩),
     (2, ⟨ExerciseMode.focus_areas, [20], []⟩),
     (3, ⟨ExerciseMode.direct_exercises, [], [31, 32]⟩),
     (4, ⟨ExerciseMode.direct_exercises, [], [41]⟩),
     (5, ⟨ExerciseMode.focus_areas, [50], []⟩)]
    [(1, ⟨ExerciseMode.direct_exercises, [], [31, 32]⟩),
     (2, ⟨ExerciseMode.focus_areas, [10], []⟩),
     (3, ⟨ExerciseMode.focus_areas, [20], []⟩),
     (4, ⟨ExerciseMode.direct_exercises, [], [41]⟩),
     (5, ⟨ExerciseMode.focus_areas, [50], []⟩)]
    [1, 2, 3] 3 1 (by decide) (by decide) (by decide)
  refine ⟨?_, ?_, ?_, ?_⟩
  · exact h.2.1.trans (by decide)
  · exact (h.2.2.2.1 2 (by decide) (by decide) (by decide)).trans (by decide)
  · exact (h.2.2.2.1 3 (by decide) (by decide) (by decide)).trans (by decide)
  · exact (h.2.2.2.2 4 (by decide)).trans (by decide)

/-! ## WorkoutComposer persistence: wholesale plan replacement

store_user_generated_exercises (app/db/queries.py) runs a DELETE of the
user's user_generated_exercises rows and then a copy_records_to_table of
the new rows. The caller, generate_workout_plan (app/apis/user.py),
obtains its connection from get_db (app/database.py), which acquires a
plain pool connection with no enclosing transaction, so the DELETE and the
COPY each commit on their own (asyncpg autocommit). Any exception inside
the function is caught by its blanket except handler, which returns False.
The state is modelled as the list of stored exercise ids for the user; the
per-row weight, reps and sets are float computations orthogonal to the
claim. insert_fails injects a storage failure in the COPY step. -/
def store_user_generated_exercises (insert_fails : Bool)
    (_prior : List Nat) (exercise_ids : List Nat) : List Nat × Bool :=
  if insert_fails then
    ([], false)
  else
    (exercise_ids, true)

/-- Embeds the tail of generate_workout_plan: it calls
store_user_generated_exercises and, when that returns False, only prints a
warning and still returns the generated exercise list as an HTTP 200
success. The second component is whether a success response is returned to
the caller. -/
def generate_workout_plan_store_step (insert_fails : Bool)
    (prior exercise_ids : List Nat) : (List Nat × Bool) × Bool :=
  (store_user_generated_exercises insert_fails prior exercise_ids, true)

/-! ## Claim C10 -/

/-- C10 counterexample: with prior assignment set [5] and new plan [7], a
failing insert leaves the store empty (the prior assignments are destroyed,
not intact, since the delete already committed on its own), the function
reports False, and the endpoint still returns a success response: the
failure is swallowed into a warning print. -/
theorem plan_replacement_atomicity_counterexample :
    store_user_generated_exercises true [5] [7] = ([], false) ∧
    ([] : List Nat) ≠ [5] ∧
    (generate_workout_plan_store_step true [5] [7]).2 = true := by
  decide

/-- C10 amended: the wholesale replacement is not atomic and its failure is
not surfaced: on an insert failure the prior assignments are already
deleted (the store is left empty) and store_user_generated_exercises
returns False; only a fully successful run leaves exactly the new
assignment set; and generate_workout_plan returns a success response to the
caller in both cases. -/
theorem plan_replacement_not_atomic (prior exercise_ids : List Nat) :
    store_user_generated_exercises true prior exercise_ids = ([], false) ∧
    store_user_generated_exercises false prior exercise_ids = (exercise_ids, true) ∧
    (∀ insert_fails,
      (generate_workout_plan_store_step insert_fails prior exercise_ids).2 = true) := by
  exact ⟨rfl, rfl, fun _ => rfl⟩
